import Mathlib

/-!
Verification development for the capability-set core (`src/base.rs`).

The core exchanges two C structures with the kernel via the `capget` and
`capset` syscalls and implements set-algebra operations (`has_cap`, `read`,
`set`, `clear`, `drop`, `raise`) on top of them.  We embed the code shallowly:

* machine integers (`u32`, `u64`) become `Nat` with explicit `% 2 ^ 32` /
  `% 2 ^ 64` at the points where the Rust code truncates (`as u32`, `>> 32`);
  struct fields typed `u32` in Rust are plain `Nat` here, and every theorem
  that depends on a field being in range carries that fact explicitly or
  holds for all `Nat`;
* the kernel state for the single target thread is a `CapUserData` value;
  a syscall trace (`List Call`) records every `capget`/`capset` issued, and
  the raw syscall return values are parameters (`gr`, `sr`): `0` means the
  kernel accepted the call, any other value is the raw failure code;
* fallible Rust functions returning `Result` become `Except CapsError`.
-/

namespace Caps

/-- The five capability set selectors of the crate (`CapSet`).  Only the
first three are backed by the kernel structure exchanged here. -/
inductive CapSet where
  | Effective
  | Permitted
  | Inheritable
  | Bounding
  | Ambient
deriving DecidableEq, Repr

/-- Modelled from the spec: the `Capability` enumeration is a collaborator
outside this core (its Rust definition is not under `src/`).  Each variant
carries a stable bit index; the enumerated variants all have indices in
`[0, 63]`, but the type models an arbitrary index so that the defensive
oversized-index arm of `set` is expressible. -/
structure Capability where
  index : Nat
deriving DecidableEq, Repr

/-- Modelled from the spec: the derived single-bit 64-bit mask of a
capability, `1u64 << index`.  For an index in `[0, 63]` this is exactly
`2 ^ index`; the `% 2 ^ 64` records the `u64` width. -/
def Capability.bitmask (c : Capability) : Nat := 2 ^ c.index % 2 ^ 64

/-- `CapUserHeader` (`src/base.rs` lines 139-146): ABI version tag plus
target thread id. -/
structure CapUserHeader where
  version : Nat
  pid : Int
deriving DecidableEq, Repr

/-- `CapUserData` (`src/base.rs` lines 148-157), in the declared field
order: the three low (`_s0`) words of the effective, permitted and
inheritable classes, then the three high (`_s1`) words.  Each field is a
`u32` word. -/
structure CapUserData where
  effective_s0 : Nat
  permitted_s0 : Nat
  inheritable_s0 : Nat
  effective_s1 : Nat
  permitted_s1 : Nat
  inheritable_s1 : Nat
deriving DecidableEq, Repr

/-- `Default::default()` for `CapUserData`: all six words zero. -/
def CapUserData.dfl : CapUserData := ⟨0, 0, 0, 0, 0, 0⟩

/-- The six words of `CapUserData` in declaration order.  The struct is
`#[repr(C)]`, so this is also its kernel-facing memory layout. -/
def CapUserData.words (d : CapUserData) : List Nat :=
  [d.effective_s0, d.permitted_s0, d.inheritable_s0,
   d.effective_s1, d.permitted_s1, d.inheritable_s1]

/-- Modelled from the spec (section 3): the word order the spec claims for
`CapabilityData`, three adjacent (low, high) pairs, one pair per class.
Kept separate from `CapUserData.words` so the two layouts can be compared. -/
def specPairOrderWords (d : CapUserData) : List Nat :=
  [d.effective_s0, d.effective_s1, d.permitted_s0, d.permitted_s1,
   d.inheritable_s0, d.inheritable_s1]

/-- `CAPS_V3` (`src/base.rs` line 7). -/
def CAPS_V3 : Nat := 0x20080522

/-- The error outcomes of the core, tagging the `bail!` sites of
`src/base.rs`: a failed `capget`/`capset` syscall carrying the raw return
value, the "not a base set" rejection of Bounding/Ambient, and the
"overlarge cap index" rejection in `set`. -/
inductive CapsError where
  | capgetError (r : Int)
  | capsetError (r : Int)
  | notABaseSet
  | overlargeIndex (i : Nat)
deriving DecidableEq, Repr

/-- One kernel call, as recorded in an operation trace: a `capget`, or a
`capset` carrying the full structure written to the kernel. -/
inductive Call where
  | capget
  | capset (data : CapUserData)
deriving DecidableEq, Repr

/-- `capget` (`src/base.rs` lines 9-15): result of the wrapper given the
raw syscall return value `r`.  `Ok` exactly when `r = 0`; otherwise the
raw value is carried in the error. -/
def capget (r : Int) : Except CapsError Unit :=
  if r = 0 then .ok () else .error (.capgetError r)

/-- `capset` (`src/base.rs` lines 17-23): same contract as `capget`. -/
def capset (r : Int) : Except CapsError Unit :=
  if r = 0 then .ok () else .error (.capsetError r)

/-- The selector match shared by `has_cap` and `read` (`src/base.rs`
lines 32-37 and 76-81): reconstructs the 64-bit mask of the selected class
as `(s1 as u64) << 32) + s0`, or bails for Bounding/Ambient.  The fields
are `u32` words, so the shift and sum are exact. -/
def csetCaps (cset : CapSet) (data : CapUserData) : Except CapsError Nat :=
  match cset with
  | .Effective => .ok (2 ^ 32 * data.effective_s1 + data.effective_s0)
  | .Inheritable => .ok (2 ^ 32 * data.inheritable_s1 + data.inheritable_s0)
  | .Permitted => .ok (2 ^ 32 * data.permitted_s1 + data.permitted_s0)
  | .Bounding | .Ambient => .error .notABaseSet

/-- `has_cap` (`src/base.rs` lines 25-40).  `gr` is the raw return of the
`capget` syscall; `kernel` is the target thread's current capability data,
which a successful `capget` copies into the local structure.  Returns the
operation result, the (unchanged) kernel state, and the syscall trace. -/
def has_cap (gr : Int) (tid : Int) (cset : CapSet) (cap : Capability)
    (kernel : CapUserData) :
    Except CapsError Bool × CapUserData × List Call :=
  match capget gr with
  | .error e => (.error e, kernel, [.capget])
  | .ok _ =>
      let data := kernel
      match csetCaps cset data with
      | .error e => (.error e, kernel, [.capget])
      | .ok caps => (.ok (decide ((caps &&& cap.bitmask) ≠ 0)), kernel, [.capget])

/-- `read` (`src/base.rs` lines 69-89).  `variants` is the closed list of
enumerated `Capability` variants (`Capability::iter_variants()`, a
collaborator; modelled from the spec as an explicit parameter).  The
result set is the variants whose bit is set, collected into a hash set;
we model the set as the filtered list. -/
def read (variants : List Capability) (gr : Int) (tid : Int) (cset : CapSet)
    (kernel : CapUserData) :
    Except CapsError (List Capability) × CapUserData × List Call :=
  match capget gr with
  | .error e => (.error e, kernel, [.capget])
  | .ok _ =>
      let data := kernel
      match csetCaps cset data with
      | .error e => (.error e, kernel, [.capget])
      | .ok caps =>
          (.ok (variants.filter (fun c => decide ((caps &&& c.bitmask) ≠ 0))),
           kernel, [.capget])

/-- The trailing `capset` of a mutating operation: `data` is the full
structure handed to the kernel, `sr` the raw syscall return.  On success
the kernel state becomes `data`; on failure it is unchanged and the raw
code is surfaced.  The issued call is recorded either way. -/
def finishStore (sr : Int) (kernel data : CapUserData) :
    Except CapsError Unit × CapUserData × List Call :=
  match capset sr with
  | .ok _ => (.ok (), data, [.capget, .capset data])
  | .error e => (.error e, kernel, [.capget, .capset data])

/-- `clear` (`src/base.rs` lines 42-67): fetches, zeroes the selected pair
(for Permitted, the effective pair as well), and stores the whole
structure back. -/
def clear (gr sr : Int) (tid : Int) (cset : CapSet) (kernel : CapUserData) :
    Except CapsError Unit × CapUserData × List Call :=
  match capget gr with
  | .error e => (.error e, kernel, [.capget])
  | .ok _ =>
      let data := kernel
      match cset with
      | .Effective =>
          finishStore sr kernel { data with effective_s0 := 0, effective_s1 := 0 }
      | .Inheritable =>
          finishStore sr kernel { data with inheritable_s0 := 0, inheritable_s1 := 0 }
      | .Permitted =>
          finishStore sr kernel
            { data with effective_s0 := 0, effective_s1 := 0,
                        permitted_s0 := 0, permitted_s1 := 0 }
      | .Bounding | .Ambient => (.error .notABaseSet, kernel, [.capget])

/-- The bit-assembly loop of `set` (`src/base.rs` lines 105-117): starting
from the zeroed pair, ORs each capability of the new set into the low word
(`bitmask as u32`) for index 0..=31 or into the high word
(`(bitmask >> 32) as u32`) for index 32..=63, and bails on the first
larger index.  Accumulators are `(s1, s0)`. -/
def assemble : List Capability → Nat → Nat → Except CapsError (Nat × Nat)
  | [], s1, s0 => .ok (s1, s0)
  | c :: rest, s1, s0 =>
      if c.index ≤ 31 then
        assemble rest s1 (s0 ||| (c.bitmask % 2 ^ 32))
      else if c.index ≤ 63 then
        assemble rest (s1 ||| ((c.bitmask >>> 32) % 2 ^ 32)) s0
      else
        .error (.overlargeIndex c.index)

/-- Writing the assembled pair into the selected class of the fetched
structure (the borrow in `src/base.rs` lines 99-106).  Bounding/Ambient
never reach this point in `set`; the structure is returned unchanged for
them. -/
def writePair (cset : CapSet) (data : CapUserData) (s1 s0 : Nat) : CapUserData :=
  match cset with
  | .Effective => { data with effective_s1 := s1, effective_s0 := s0 }
  | .Inheritable => { data with inheritable_s1 := s1, inheritable_s0 := s0 }
  | .Permitted => { data with permitted_s1 := s1, permitted_s0 := s0 }
  | .Bounding | .Ambient => data

/-- `set` (`src/base.rs` lines 91-121): fetch, rebuild the selected pair
from `value` in memory, then store the whole structure. -/
def set (gr sr : Int) (tid : Int) (cset : CapSet) (value : List Capability)
    (kernel : CapUserData) :
    Except CapsError Unit × CapUserData × List Call :=
  match capget gr with
  | .error e => (.error e, kernel, [.capget])
  | .ok _ =>
      match cset with
      | .Bounding | .Ambient => (.error .notABaseSet, kernel, [.capget])
      | _ =>
          match assemble value 0 0 with
          | .error e => (.error e, kernel, [.capget])
          | .ok (s1, s0) => finishStore sr kernel (writePair cset kernel s1 s0)

/-- `drop` (`src/base.rs` lines 123-129): read the current set; only if
the capability was present, remove it and call `set` with the reduced
set.  `gr1` is the return of the read's `capget`, `gr2` and `sr` those of
the syscalls inside `set`. -/
def drop (variants : List Capability) (gr1 gr2 sr : Int) (tid : Int)
    (cset : CapSet) (cap : Capability) (kernel : CapUserData) :
    Except CapsError Unit × CapUserData × List Call :=
  match read variants gr1 tid cset kernel with
  | (.error e, k, t) => (.error e, k, t)
  | (.ok caps, k, t) =>
      if cap ∈ caps then
        match set gr2 sr tid cset (caps.erase cap) k with
        | (.error e, k2, t2) => (.error e, k2, t ++ t2)
        | (.ok _, k2, t2) => (.ok (), k2, t ++ t2)
      else (.ok (), k, t)

/-- `raise` (`src/base.rs` lines 131-137): read the current set; only if
the capability was absent, insert it and call `set` with the grown set. -/
def raise (variants : List Capability) (gr1 gr2 sr : Int) (tid : Int)
    (cset : CapSet) (cap : Capability) (kernel : CapUserData) :
    Except CapsError Unit × CapUserData × List Call :=
  match read variants gr1 tid cset kernel with
  | (.error e, k, t) => (.error e, k, t)
  | (.ok caps, k, t) =>
      if cap ∈ caps then (.ok (), k, t)
      else
        match set gr2 sr tid cset (caps ++ [cap]) k with
        | (.error e, k2, t2) => (.error e, k2, t ++ t2)
        | (.ok _, k2, t2) => (.ok (), k2, t ++ t2)

/-- Whether a selector is one of the three classes backed by
`CapUserData`. -/
def CapSet.isBase : CapSet → Bool
  | .Effective | .Permitted | .Inheritable => true
  | .Bounding | .Ambient => false

/-! ### Helper lemmas -/

lemma bitmask_of_le {c : Capability} (h : c.index ≤ 63) : c.bitmask = 2 ^ c.index := by
  unfold Capability.bitmask
  exact Nat.mod_eq_of_lt (Nat.pow_lt_pow_right (by omega) (by omega))

lemma and_two_pow_ne_zero (caps i : Nat) :
    ((caps &&& 2 ^ i) ≠ 0) ↔ Nat.testBit caps i = true := by
  constructor
  · intro h
    obtain ⟨j, hj⟩ := Nat.ne_zero_implies_bit_true h
    simp only [Nat.testBit_and, Nat.testBit_two_pow, Bool.and_eq_true,
      decide_eq_true_eq] at hj
    rcases hj with ⟨h1, h2⟩
    rw [h2]
    exact h1
  · intro h hz
    have hb : Nat.testBit (caps &&& 2 ^ i) i = true := by
      simp [Nat.testBit_and, h, Nat.testBit_two_pow_self]
    rw [hz] at hb
    simp at hb

/-- Bit `j` of a reconstructed `(high, low)` pair. -/
lemma pairBits (r1 r0 : Nat) (h0 : r0 < 2 ^ 32) (j : Nat) :
    Nat.testBit (2 ^ 32 * r1 + r0) j =
      if j < 32 then Nat.testBit r0 j else Nat.testBit r1 (j - 32) :=
  Nat.testBit_mul_pow_two_add r1 h0 j

/-- For a base selector, `csetCaps` always succeeds. -/
lemma csetCaps_base {cset : CapSet} (h : cset.isBase = true) (d : CapUserData) :
    ∃ caps, csetCaps cset d = .ok caps := by
  cases cset <;> simp [CapSet.isBase] at h <;> exact ⟨_, rfl⟩

/-- If `read` succeeds, the selector is one of the base classes. -/
lemma read_ok_isBase {variants : List Capability} {gr tid : Int} {cset : CapSet}
    {k : CapUserData} {l : List Capability}
    (h : (read variants gr tid cset k).1 = .ok l) : cset.isBase = true := by
  cases cset <;> try rfl
  all_goals
    unfold read capget csetCaps at h
  all_goals
    by_cases hg : gr = 0 <;> simp [hg] at h

/-- `read` never mutates kernel state and issues exactly one `capget`. -/
lemma read_frame (variants : List Capability) (gr tid : Int) (cset : CapSet)
    (k : CapUserData) : (read variants gr tid cset k).2 = (k, [.capget]) := by
  unfold read capget
  by_cases hg : gr = 0 <;> cases cset <;> simp [hg, csetCaps]

/-- A successful fetch makes `read` the filter of the variants over the
selected mask. -/
lemma read_eq (variants : List Capability) (tid : Int) {cset : CapSet}
    (k : CapUserData) {caps : Nat} (hcaps : csetCaps cset k = .ok caps) :
    read variants 0 tid cset k =
      (.ok (variants.filter (fun c => decide ((caps &&& c.bitmask) ≠ 0))),
       k, [.capget]) := by
  unfold read capget
  simp [hcaps]

/-- Characterization of the assembly loop: when every index fits in the
pair, it succeeds and the resulting words carry exactly the bits of the
accumulators plus one bit per capability (low word for indices 0..=31,
high word, shifted by 32, for indices 32..=63). -/
lemma assemble_sound :
    ∀ (S : List Capability), (∀ c ∈ S, c.index ≤ 63) →
    ∀ a1 a0 : Nat, ∃ r1 r0 : Nat, assemble S a1 a0 = .ok (r1, r0) ∧
      (∀ j, Nat.testBit r0 j = true ↔
        (Nat.testBit a0 j = true ∨ ∃ c ∈ S, c.index = j ∧ j ≤ 31)) ∧
      (∀ j, Nat.testBit r1 j = true ↔
        (Nat.testBit a1 j = true ∨ ∃ c ∈ S, c.index = j + 32)) := by
  intro S
  induction S with
  | nil =>
      intro _ a1 a0
      exact ⟨a1, a0, rfl, by simp, by simp⟩
  | cons c rest ih =>
      intro h a1 a0
      have hc : c.index ≤ 63 := h c (by simp)
      have hrest : ∀ x ∈ rest, x.index ≤ 63 := fun x hx => h x (by simp [hx])
      by_cases h31 : c.index ≤ 31
      · have hm : c.bitmask % 2 ^ 32 = 2 ^ c.index := by
          rw [bitmask_of_le hc]
          exact Nat.mod_eq_of_lt (Nat.pow_lt_pow_right (by omega) (by omega))
        obtain ⟨r1, r0, he, hlo, hhi⟩ := ih hrest a1 (a0 ||| c.bitmask % 2 ^ 32)
        refine ⟨r1, r0, ?_, ?_, ?_⟩
        · unfold assemble
          rw [if_pos h31]
          exact he
        · intro j
          rw [hlo j, hm]
          simp only [Nat.testBit_or, Bool.or_eq_true, Nat.testBit_two_pow,
            decide_eq_true_eq, List.mem_cons]
          constructor
          · rintro ((hb | rfl) | ⟨x, hx, hxj⟩)
            · exact Or.inl hb
            · exact Or.inr ⟨c, Or.inl rfl, rfl, h31⟩
            · exact Or.inr ⟨x, Or.inr hx, hxj⟩
          · rintro (hb | ⟨x, (rfl | hx), hxj, hj31⟩)
            · exact Or.inl (Or.inl hb)
            · exact Or.inl (Or.inr hxj)
            · exact Or.inr ⟨x, hx, hxj, hj31⟩
        · intro j
          rw [hhi j]
          simp only [List.mem_cons]
          constructor
          · rintro (hb | ⟨x, hx, hxj⟩)
            · exact Or.inl hb
            · exact Or.inr ⟨x, Or.inr hx, hxj⟩
          · rintro (hb | ⟨x, (rfl | hx), hxj⟩)
            · exact Or.inl hb
            · omega
            · exact Or.inr ⟨x, hx, hxj⟩
      · have h3263 : 32 ≤ c.index ∧ c.index ≤ 63 := ⟨by omega, hc⟩
        have hm : (c.bitmask >>> 32) % 2 ^ 32 = 2 ^ (c.index - 32) := by
          rw [bitmask_of_le hc, Nat.shiftRight_eq_div_pow,
            Nat.pow_div h3263.1 (by omega)]
          exact Nat.mod_eq_of_lt (Nat.pow_lt_pow_right (by omega) (by omega))
        obtain ⟨r1, r0, he, hlo, hhi⟩ :=
          ih hrest (a1 ||| (c.bitmask >>> 32) % 2 ^ 32) a0
        refine ⟨r1, r0, ?_, ?_, ?_⟩
        · unfold assemble
          rw [if_neg h31, if_pos hc]
          exact he
        · intro j
          rw [hlo j]
          simp only [List.mem_cons]
          constructor
          · rintro (hb | ⟨x, hx, hxj⟩)
            · exact Or.inl hb
            · exact Or.inr ⟨x, Or.inr hx, hxj⟩
          · rintro (hb | ⟨x, (rfl | hx), hxj, hj31⟩)
            · exact Or.inl hb
            · omega
            · exact Or.inr ⟨x, hx, hxj, hj31⟩
        · intro j
          rw [hhi j, hm]
          simp only [Nat.testBit_or, Bool.or_eq_true, Nat.testBit_two_pow,
            decide_eq_true_eq, List.mem_cons]
          constructor
          · rintro ((hb | hej) | ⟨x, hx, hxj⟩)
            · exact Or.inl hb
            · exact Or.inr ⟨c, Or.inl rfl, by omega⟩
            · exact Or.inr ⟨x, Or.inr hx, hxj⟩
          · rintro (hb | ⟨x, (rfl | hx), hxj⟩)
            · exact Or.inl (Or.inl hb)
            · exact Or.inl (Or.inr (by omega))
            · exact Or.inr ⟨x, hx, hxj⟩

/-- The assembled words stay below `2 ^ 32` when the accumulators do. -/
lemma assemble_lt {S : List Capability} {a1 a0 r1 r0 : Nat}
    (hS : ∀ c ∈ S, c.index ≤ 63) (h1 : a1 < 2 ^ 32) (h0 : a0 < 2 ^ 32)
    (he : assemble S a1 a0 = .ok (r1, r0)) : r1 < 2 ^ 32 ∧ r0 < 2 ^ 32 := by
  obtain ⟨r1x, r0x, hex, hlo, hhi⟩ := assemble_sound S hS a1 a0
  have hpair : (r1x, r0x) = (r1, r0) := Except.ok.inj (hex.symm.trans he)
  injection hpair with h1x h0x
  subst h1x
  subst h0x
  constructor
  · refine Nat.lt_pow_two_of_testBit _ (fun i hi => ?_)
    by_contra hbit
    rcases (hhi i).mp (Bool.of_not_eq_false hbit) with hb | ⟨c, hcS, hci⟩
    · exact absurd hb (by simp [Nat.testBit_lt_two_pow
        (Nat.lt_of_lt_of_le h1 (Nat.pow_le_pow_right (by omega) hi))])
    · have := hS c hcS
      omega
  · refine Nat.lt_pow_two_of_testBit _ (fun i hi => ?_)
    by_contra hbit
    rcases (hlo i).mp (Bool.of_not_eq_false hbit) with hb | ⟨c, hcS, hci, hle⟩
    · exact absurd hb (by simp [Nat.testBit_lt_two_pow
        (Nat.lt_of_lt_of_le h0 (Nat.pow_le_pow_right (by omega) hi))])
    · omega

/-- Reading the selected class back from the structure `set` wrote. -/
lemma csetCaps_writePair {cset : CapSet} (h : cset.isBase = true)
    (k : CapUserData) (s1 s0 : Nat) :
    csetCaps cset (writePair cset k s1 s0) = .ok (2 ^ 32 * s1 + s0) := by
  cases cset <;> simp [CapSet.isBase] at h <;> rfl

/-- Full description of a successful `set`: for a base selector and a set
whose indices fit, the assembled pair is written into the fetched
structure and stored with a single trailing `capset`; the stored 64-bit
mask of the selected class has exactly one bit per capability of the new
set. -/
lemma set_ok (tid : Int) {cset : CapSet} (hbase : cset.isBase = true)
    {S : List Capability} (hS : ∀ c ∈ S, c.index ≤ 63) (k : CapUserData) :
    ∃ r1 r0 : Nat, assemble S 0 0 = .ok (r1, r0) ∧ r1 < 2 ^ 32 ∧ r0 < 2 ^ 32 ∧
      set 0 0 tid cset S k =
        (.ok (), writePair cset k r1 r0,
         [.capget, .capset (writePair cset k r1 r0)]) ∧
      csetCaps cset (writePair cset k r1 r0) = .ok (2 ^ 32 * r1 + r0) ∧
      (∀ j, Nat.testBit (2 ^ 32 * r1 + r0) j = true ↔ ∃ c ∈ S, c.index = j) := by
  obtain ⟨r1, r0, he, hlo, hhi⟩ := assemble_sound S hS 0 0
  obtain ⟨hr1, hr0⟩ := assemble_lt hS (by omega) (by omega) he
  refine ⟨r1, r0, he, hr1, hr0, ?_, csetCaps_writePair hbase k r1 r0, ?_⟩
  · unfold set capget finishStore capset
    cases cset <;> simp [CapSet.isBase] at hbase <;> simp [he]
  · intro j
    rw [pairBits r1 r0 hr0 j]
    by_cases hj : j < 32
    · rw [if_pos hj, hlo j]
      simp only [Nat.zero_testBit, Bool.false_eq_true, false_or]
      constructor
      · rintro ⟨c, hc, hcj, _⟩
        exact ⟨c, hc, hcj⟩
      · rintro ⟨c, hc, hcj⟩
        exact ⟨c, hc, hcj, by omega⟩
    · rw [if_neg hj, hhi (j - 32)]
      simp only [Nat.zero_testBit, Bool.false_eq_true, false_or]
      constructor
      · rintro ⟨c, hc, hcj⟩
        exact ⟨c, hc, by omega⟩
      · rintro ⟨c, hc, hcj⟩
        exact ⟨c, hc, by omega⟩

/-- Whatever the failure, `set` leaves the kernel state unchanged. -/
lemma set_error_kernel_unchanged (gr sr tid : Int) (cset : CapSet)
    (value : List Capability) (k : CapUserData) (e : CapsError)
    (h : (set gr sr tid cset value k).1 = .error e) :
    (set gr sr tid cset value k).2.1 = k := by
  unfold set capget finishStore capset at *
  by_cases hg : gr = 0
  · rcases ha : assemble value 0 0 with _ | ⟨s1, s0⟩ <;>
      by_cases hs : sr = 0 <;> cases cset <;> simp_all
  · simp_all

/-- A capability with an oversized index makes the assembly loop bail
with `overlargeIndex`. -/
lemma assemble_error_of_oversized :
    ∀ (S : List Capability) (a1 a0 : Nat), (∃ c ∈ S, 64 ≤ c.index) →
      ∃ i, 64 ≤ i ∧ assemble S a1 a0 = .error (.overlargeIndex i) := by
  intro S
  induction S with
  | nil =>
      intro a1 a0 h
      simp at h
  | cons c rest ih =>
      intro a1 a0 h
      by_cases h31 : c.index ≤ 31
      · have hrest : ∃ x ∈ rest, 64 ≤ x.index := by
          rcases h with ⟨x, hx, hxi⟩
          rcases List.mem_cons.mp hx with rfl | hx
          · omega
          · exact ⟨x, hx, hxi⟩
        obtain ⟨i, hi, he⟩ := ih _ _ hrest
        refine ⟨i, hi, ?_⟩
        unfold assemble
        rw [if_pos h31]
        exact he
      · by_cases h63 : c.index ≤ 63
        · have hrest : ∃ x ∈ rest, 64 ≤ x.index := by
            rcases h with ⟨x, hx, hxi⟩
            rcases List.mem_cons.mp hx with rfl | hx
            · omega
            · exact ⟨x, hx, hxi⟩
          obtain ⟨i, hi, he⟩ := ih _ _ hrest
          refine ⟨i, hi, ?_⟩
          unfold assemble
          rw [if_neg h31, if_pos h63]
          exact he
        · refine ⟨c.index, by omega, ?_⟩
          unfold assemble
          rw [if_neg h31, if_neg h63]

/-- A successful `read` in full: result, untouched kernel, one get call. -/
lemma read_ok_full {variants : List Capability} {tid : Int} {cset : CapSet}
    {k : CapUserData} {l : List Capability}
    (h : (read variants 0 tid cset k).1 = .ok l) :
    read variants 0 tid cset k = (.ok l, k, [.capget]) :=
  Prod.ext h (read_frame variants 0 tid cset k)

/-- The set a successful `read` returns only holds enumerated variants. -/
lemma read_ok_mem_variants {variants : List Capability} {tid : Int}
    {cset : CapSet} {k : CapUserData} {l : List Capability}
    (h : (read variants 0 tid cset k).1 = .ok l) : ∀ c ∈ l, c ∈ variants := by
  obtain ⟨caps, hcaps⟩ := csetCaps_base (read_ok_isBase h) k
  rw [read_eq variants tid k hcaps] at h
  have hl := Except.ok.inj h
  intro c hc
  rw [← hl] at hc
  exact (List.mem_filter.mp hc).1

/-- With a non-base selector, `drop` and `raise` fail on the initial read
with one get call and no store. -/
lemma drop_raise_nonbase {cset : CapSet} (h : cset.isBase = false)
    (variants : List Capability) (gr1 gr2 sr tid : Int) (cap : Capability)
    (k : CapUserData) :
    ∃ e, drop variants gr1 gr2 sr tid cset cap k = (.error e, k, [.capget]) ∧
      raise variants gr1 gr2 sr tid cset cap k = (.error e, k, [.capget]) := by
  unfold drop raise read capget
  by_cases hg : gr1 = 0 <;>
    cases cset <;> simp [CapSet.isBase] at h <;> simp [hg, csetCaps]

/-- Capability values are determined by their bit index. -/
lemma capability_index_inj : ∀ {a b : Capability}, a.index = b.index → a = b
  | ⟨_⟩, ⟨_⟩, rfl => rfl

/-- An index past the 64-bit space has a zero `u64` mask. -/
lemma bitmask_zero_of_ge {c : Capability} (h : 64 ≤ c.index) : c.bitmask = 0 := by
  unfold Capability.bitmask
  exact Nat.mod_eq_zero_of_dvd (pow_dvd_pow 2 h)

/-! ### Claim theorems -/

/-- C1, counterexample: invoking `has_cap` with the Bounding selector does
fail with the "not a base set" error, but its syscall trace is not empty:
one `capget` is issued before the selector is examined.  This refutes the
claim that zero kernel calls are issued. -/
theorem c1_one_get_counterexample :
    (has_cap 0 0 .Bounding ⟨0⟩ CapUserData.dfl).1 = .error .notABaseSet ∧
    (has_cap 0 0 .Bounding ⟨0⟩ CapUserData.dfl).2.2 ≠ [] := by
  constructor
  · rfl
  · decide

/-- C1 (amended): every operation invoked with selector Bounding or
Ambient fails with the "not a base set" error, issues exactly one get
syscall and zero set syscalls, and leaves the kernel state unchanged.
(The code fetches the current state before examining the selector, so
one `capget` is always issued; the amendment is forced by
`c1_one_get_counterexample`.) -/
theorem unsupported_selector_fails_one_get (tid gr2 sr : Int) (cset : CapSet)
    (cap : Capability) (variants value : List Capability) (k : CapUserData)
    (h : cset = .Bounding ∨ cset = .Ambient) :
    has_cap 0 tid cset cap k = (.error .notABaseSet, k, [.capget]) ∧
    read variants 0 tid cset k = (.error .notABaseSet, k, [.capget]) ∧
    clear 0 sr tid cset k = (.error .notABaseSet, k, [.capget]) ∧
    set 0 sr tid cset value k = (.error .notABaseSet, k, [.capget]) ∧
    drop variants 0 gr2 sr tid cset cap k = (.error .notABaseSet, k, [.capget]) ∧
    raise variants 0 gr2 sr tid cset cap k = (.error .notABaseSet, k, [.capget]) := by
  rcases h with rfl | rfl <;>
    refine ⟨rfl, rfl, rfl, rfl, ?_, ?_⟩ <;>
    simp [drop, raise, read, capget, csetCaps]

/-- C1 witness: the amended theorem applied to `has_cap` and friends at
selector Bounding, thread 0, an all-zero kernel state. -/
theorem unsupported_selector_fails_one_get_witness :
    has_cap 0 0 .Bounding ⟨3⟩ CapUserData.dfl =
      (.error .notABaseSet, CapUserData.dfl, [.capget]) ∧
    read [⟨0⟩] 0 0 .Bounding CapUserData.dfl =
      (.error .notABaseSet, CapUserData.dfl, [.capget]) ∧
    clear 0 0 0 .Bounding CapUserData.dfl =
      (.error .notABaseSet, CapUserData.dfl, [.capget]) ∧
    set 0 0 0 .Bounding [⟨0⟩] CapUserData.dfl =
      (.error .notABaseSet, CapUserData.dfl, [.capget]) ∧
    drop [⟨0⟩] 0 0 0 0 .Bounding ⟨3⟩ CapUserData.dfl =
      (.error .notABaseSet, CapUserData.dfl, [.capget]) ∧
    raise [⟨0⟩] 0 0 0 0 .Bounding ⟨3⟩ CapUserData.dfl =
      (.error .notABaseSet, CapUserData.dfl, [.capget]) :=
  unsupported_selector_fails_one_get 0 0 0 .Bounding ⟨3⟩ [⟨0⟩] [⟨0⟩]
    CapUserData.dfl (Or.inl rfl)

/-- C2: `clear` with selector Permitted zeroes both the permitted and the
effective pair in the single store it issues, so reading the effective
(and permitted) class of the stored state yields the empty set; with
selector Effective or Inheritable only the selected pair is zeroed. -/
theorem clear_permitted_cascades_to_effective (tid : Int)
    (variants : List Capability) (k : CapUserData) :
    (clear 0 0 tid .Permitted k =
      (.ok (), { k with effective_s0 := 0, effective_s1 := 0,
                        permitted_s0 := 0, permitted_s1 := 0 },
       [.capget, .capset { k with effective_s0 := 0, effective_s1 := 0,
                                  permitted_s0 := 0, permitted_s1 := 0 }]) ∧
     (read variants 0 tid .Effective
        (clear 0 0 tid .Permitted k).2.1).1 = .ok [] ∧
     (read variants 0 tid .Permitted
        (clear 0 0 tid .Permitted k).2.1).1 = .ok []) ∧
    clear 0 0 tid .Effective k =
      (.ok (), { k with effective_s0 := 0, effective_s1 := 0 },
       [.capget, .capset { k with effective_s0 := 0, effective_s1 := 0 }]) ∧
    clear 0 0 tid .Inheritable k =
      (.ok (), { k with inheritable_s0 := 0, inheritable_s1 := 0 },
       [.capget, .capset { k with inheritable_s0 := 0, inheritable_s1 := 0 }]) := by
  refine ⟨⟨rfl, ?_, ?_⟩, rfl, rfl⟩ <;>
    simp [clear, read, capget, capset, csetCaps, finishStore]

/-- C6, counterexample: the claimed word order of `CapUserData` — three
adjacent (low, high) pairs — disagrees with the declared `#[repr(C)]`
field order at a structure whose six words are pairwise distinct. -/
theorem capUserData_pair_order_counterexample :
    CapUserData.words ⟨0, 1, 2, 3, 4, 5⟩ ≠
      specPairOrderWords ⟨0, 1, 2, 3, 4, 5⟩ := by
  decide

/-- C6 (amended): `CapUserData` consists of six unsigned 32-bit words, but
in word-major order: first the three low words of the effective, permitted
and inheritable classes, then the three high words in the same class
order.  Word `m` and word `m + 3` of the layout form the (low, high) pair
whose 64-bit mask the selector match reconstructs for class `m`. -/
theorem capUserData_layout (d : CapUserData) :
    d.words.length = 6 ∧
    csetCaps .Effective d = .ok (2 ^ 32 * d.words[3]! + d.words[0]!) ∧
    csetCaps .Permitted d = .ok (2 ^ 32 * d.words[4]! + d.words[1]!) ∧
    csetCaps .Inheritable d = .ok (2 ^ 32 * d.words[5]! + d.words[2]!) :=
  ⟨rfl, rfl, rfl, rfl⟩

/-- C7: the `capget` and `capset` wrappers succeed exactly when the raw
syscall return value is zero, and for any non-zero return value they fail
with an error carrying that raw value undecoded. -/
theorem syscall_wrappers_raw_code (r : Int) :
    (capget r = .ok () ↔ r = 0) ∧ (capset r = .ok () ↔ r = 0) ∧
    (r ≠ 0 → capget r = .error (.capgetError r) ∧
             capset r = .error (.capsetError r)) := by
  unfold capget capset
  by_cases h : r = 0 <;> simp [h]

/-- C7 witness: the wrapper contract applied at the concrete return
values 0 and -22. -/
theorem syscall_wrappers_raw_code_witness :
    capget 0 = .ok () ∧ capset 0 = .ok () ∧
    capget (-22) = .error (.capgetError (-22)) ∧
    capset (-22) = .error (.capsetError (-22)) :=
  ⟨(syscall_wrappers_raw_code 0).1.mpr rfl,
   (syscall_wrappers_raw_code 0).2.1.mpr rfl,
   ((syscall_wrappers_raw_code (-22)).2.2 (by decide)).1,
   ((syscall_wrappers_raw_code (-22)).2.2 (by decide)).2⟩

/-- C3: for a base selector and a capability set of enumerated variants
whose indices all fit in [0, 63], a successful `set` followed by `read`
of the same selector over the stored state returns a set equal to the
one written (round trip). -/
theorem overwrite_read_roundtrip (variants S : List Capability) (tid : Int)
    (cset : CapSet) (k : CapUserData)
    (hbase : cset.isBase = true)
    (hidx : ∀ c ∈ S, c.index ≤ 63)
    (hsub : ∀ c ∈ S, c ∈ variants) :
    ∃ k2 l, set 0 0 tid cset S k = (.ok (), k2, [.capget, .capset k2]) ∧
      (read variants 0 tid cset k2).1 = .ok l ∧ (∀ c, c ∈ l ↔ c ∈ S) := by
  obtain ⟨r1, r0, _, hr1, hr0, hset, hcaps, hbits⟩ := set_ok tid hbase hidx k
  refine ⟨writePair cset k r1 r0,
    variants.filter (fun c => decide (((2 ^ 32 * r1 + r0) &&& c.bitmask) ≠ 0)),
    hset, ?_, ?_⟩
  · rw [read_eq variants tid _ hcaps]
  · intro c
    rw [List.mem_filter]
    simp only [decide_eq_true_eq]
    constructor
    · rintro ⟨hv, hne⟩
      by_cases h64 : c.index ≤ 63
      · rw [bitmask_of_le h64, and_two_pow_ne_zero] at hne
        obtain ⟨x, hxS, hxi⟩ := (hbits c.index).mp hne
        rwa [← capability_index_inj hxi]
      · rw [bitmask_zero_of_ge (by omega)] at hne
        simp at hne
    · intro hS
      refine ⟨hsub c hS, ?_⟩
      rw [bitmask_of_le (hidx c hS), and_two_pow_ne_zero]
      exact (hbits c.index).mpr ⟨c, hS, rfl⟩

/-- C3 witness: the round trip at selector Effective for the concrete set
with indices 5 and 40 over a dirty kernel state. -/
theorem overwrite_read_roundtrip_witness :
    ∃ k2 l, set 0 0 0 .Effective [⟨5⟩, ⟨40⟩] ⟨7, 7, 7, 7, 7, 7⟩ =
        (.ok (), k2, [.capget, .capset k2]) ∧
      (read [⟨0⟩, ⟨5⟩, ⟨40⟩] 0 0 .Effective k2).1 = .ok l ∧
      (∀ c, c ∈ l ↔ c ∈ [Capability.mk 5, Capability.mk 40]) :=
  overwrite_read_roundtrip [⟨0⟩, ⟨5⟩, ⟨40⟩] [⟨5⟩, ⟨40⟩] 0 .Effective
    ⟨7, 7, 7, 7, 7, 7⟩ rfl (by decide) (by decide)

/-- C4: for a base selector and in-range indices, `set` overwrites the
selected pair with words rebuilt from scratch: bit `j` of the stored low
word is set exactly when the new set has a capability of index `j` (with
`j ≤ 31`), and bit `j` of the stored high word exactly when it has one of
index `j + 32`; no bit of the previous pair survives. -/
theorem overwrite_bit_packing (tid : Int) (cset : CapSet) (S : List Capability)
    (k : CapUserData) (hbase : cset.isBase = true)
    (hidx : ∀ c ∈ S, c.index ≤ 63) :
    ∃ r1 r0 : Nat, set 0 0 tid cset S k =
        (.ok (), writePair cset k r1 r0,
         [.capget, .capset (writePair cset k r1 r0)]) ∧
      (∀ j, Nat.testBit r0 j = true ↔ ∃ c ∈ S, c.index = j ∧ j ≤ 31) ∧
      (∀ j, Nat.testBit r1 j = true ↔ ∃ c ∈ S, c.index = j + 32) := by
  obtain ⟨r1, r0, he, hlo, hhi⟩ := assemble_sound S hidx 0 0
  refine ⟨r1, r0, ?_, fun j => by simpa using hlo j, fun j => by simpa using hhi j⟩
  unfold set capget finishStore capset
  cases cset <;> simp [CapSet.isBase] at hbase <;> simp [he]

/-- C4 witness: overwriting a dirty effective pair with the single
capability of index 5 stores low word `2 ^ 5 = 32` and high word 0, and
with the single capability of index 40 stores high word `2 ^ 8 = 256` and
low word 0. -/
theorem overwrite_bit_packing_witness :
    (∃ r1 r0 : Nat, set 0 0 0 .Effective [⟨5⟩] ⟨9, 8, 7, 6, 5, 4⟩ =
        (.ok (), writePair .Effective ⟨9, 8, 7, 6, 5, 4⟩ r1 r0,
         [.capget, .capset (writePair .Effective ⟨9, 8, 7, 6, 5, 4⟩ r1 r0)]) ∧
      (∀ j, Nat.testBit r0 j = true ↔ ∃ c ∈ [Capability.mk 5], c.index = j ∧ j ≤ 31) ∧
      (∀ j, Nat.testBit r1 j = true ↔ ∃ c ∈ [Capability.mk 5], c.index = j + 32)) ∧
    (set 0 0 0 .Effective [⟨5⟩] ⟨9, 8, 7, 6, 5, 4⟩).2.1 = ⟨32, 8, 7, 0, 5, 4⟩ ∧
    (set 0 0 0 .Effective [⟨40⟩] ⟨9, 8, 7, 6, 5, 4⟩).2.1 = ⟨0, 8, 7, 256, 5, 4⟩ :=
  ⟨overwrite_bit_packing 0 .Effective [⟨5⟩] ⟨9, 8, 7, 6, 5, 4⟩ rfl (by decide),
   by decide, by decide⟩

/-- C5, counterexample: `set` with a capability of index 64 does fail with
the overlarge-index error, but its syscall trace is not empty: the fetch
(`capget`) has already been issued when the index check fails.  This
refutes the claim that the failure precedes any syscall. -/
theorem c5_oversized_counterexample :
    (set 0 0 0 .Effective [⟨64⟩] CapUserData.dfl).1 =
      .error (.overlargeIndex 64) ∧
    (set 0 0 0 .Effective [⟨64⟩] CapUserData.dfl).2.2 ≠ [] := by
  constructor
  · rfl
  · decide

/-- C5 (amended): during `set` with a base selector, a capability with
bit index ≥ 64 causes failure with the overlarge-index error before any
*store* syscall is issued — the trace is the single fetch — and the
kernel state is untouched; moreover on every error outcome of `set`
(failed fetch, unsupported selector, oversized index, failed store) the
kernel state is left unchanged, the full bitmask being assembled in
memory before the single store.  (The amendment — one get syscall
precedes the failure — is forced by `c5_oversized_counterexample`.) -/
theorem overwrite_oversized_aborts (tid sr : Int) (cset : CapSet)
    (value : List Capability) (k : CapUserData)
    (hbase : cset.isBase = true)
    (hover : ∃ c ∈ value, 64 ≤ c.index) :
    (∃ i, 64 ≤ i ∧ (set 0 sr tid cset value k).1 = .error (.overlargeIndex i)) ∧
    (set 0 sr tid cset value k).2.1 = k ∧
    (set 0 sr tid cset value k).2.2 = [.capget] ∧
    ∀ (gr' sr' tid' : Int) (cset' : CapSet) (value' : List Capability)
      (k' : CapUserData) (e : CapsError),
      (set gr' sr' tid' cset' value' k').1 = .error e →
      (set gr' sr' tid' cset' value' k').2.1 = k' := by
  obtain ⟨i, hi, he⟩ := assemble_error_of_oversized value 0 0 hover
  have hset : set 0 sr tid cset value k =
      (.error (.overlargeIndex i), k, [.capget]) := by
    unfold set capget
    cases cset <;> simp [CapSet.isBase] at hbase <;> simp [he]
  exact ⟨⟨i, hi, by rw [hset]⟩, by rw [hset], by rw [hset],
    fun gr' sr' tid' cset' value' k' e h =>
      set_error_kernel_unchanged gr' sr' tid' cset' value' k' e h⟩

/-- C5 witness: the amended theorem at index 64, selector Effective, a
dirty kernel state. -/
theorem overwrite_oversized_aborts_witness :
    (∃ i, 64 ≤ i ∧ (set 0 0 0 .Effective [⟨64⟩] ⟨1, 2, 3, 4, 5, 6⟩).1 =
      .error (.overlargeIndex i)) ∧
    (set 0 0 0 .Effective [⟨64⟩] ⟨1, 2, 3, 4, 5, 6⟩).2.1 = ⟨1, 2, 3, 4, 5, 6⟩ ∧
    (set 0 0 0 .Effective [⟨64⟩] ⟨1, 2, 3, 4, 5, 6⟩).2.2 = [.capget] ∧
    ∀ (gr' sr' tid' : Int) (cset' : CapSet) (value' : List Capability)
      (k' : CapUserData) (e : CapsError),
      (set gr' sr' tid' cset' value' k').1 = .error e →
      (set gr' sr' tid' cset' value' k').2.1 = k' :=
  overwrite_oversized_aborts 0 0 .Effective [⟨64⟩] ⟨1, 2, 3, 4, 5, 6⟩ rfl
    ⟨⟨64⟩, by decide, by decide⟩

/-- C8: for a base selector and an enumerated capability, `has_cap`
returns true exactly when the set returned by `read` over the same kernel
state contains the capability. -/
theorem query_readAll_agree (variants : List Capability) (tid : Int)
    (cset : CapSet) (c : Capability) (k : CapUserData)
    (hbase : cset.isBase = true) (hc : c ∈ variants) (hidx : c.index ≤ 63) :
    ∃ b l, (has_cap 0 tid cset c k).1 = .ok b ∧
      (read variants 0 tid cset k).1 = .ok l ∧ (b = true ↔ c ∈ l) := by
  obtain ⟨caps, hcaps⟩ := csetCaps_base hbase k
  refine ⟨decide ((caps &&& c.bitmask) ≠ 0),
    variants.filter (fun x => decide ((caps &&& x.bitmask) ≠ 0)), ?_, ?_, ?_⟩
  · unfold has_cap capget
    simp [hcaps]
  · rw [read_eq variants tid k hcaps]
  · rw [List.mem_filter]
    simp [hc]

/-- C8 witness: the agreement at selector Effective for capability 2 over
a kernel state whose effective low word has bit 2 set. -/
theorem query_readAll_agree_witness :
    ∃ b l, (has_cap 0 0 .Effective ⟨2⟩ ⟨4, 0, 0, 0, 0, 0⟩).1 = .ok b ∧
      (read [⟨1⟩, ⟨2⟩] 0 0 .Effective ⟨4, 0, 0, 0, 0, 0⟩).1 = .ok l ∧
      (b = true ↔ Capability.mk 2 ∈ l) :=
  query_readAll_agree [⟨1⟩, ⟨2⟩] 0 .Effective ⟨2⟩ ⟨4, 0, 0, 0, 0, 0⟩ rfl
    (by decide) (by decide)

/-- C9: `drop` of a capability absent from the set returned by the
preceding read is a complete no-op apart from that read — result ok,
kernel unchanged, trace a single get, no store; `raise` of a present
capability likewise.  Conversely, `drop` of a present capability and
`raise` of an absent one (with an in-range index) do issue a store. -/
theorem add_remove_noop_iff (variants : List Capability) (tid : Int)
    (cset : CapSet) (cap : Capability) (k : CapUserData) (l : List Capability)
    (hvar : ∀ v ∈ variants, v.index ≤ 63) (hcap : cap.index ≤ 63)
    (hread : (read variants 0 tid cset k).1 = .ok l) :
    (cap ∉ l → drop variants 0 0 0 tid cset cap k = (.ok (), k, [.capget])) ∧
    (cap ∈ l → ∃ d, Call.capset d ∈ (drop variants 0 0 0 tid cset cap k).2.2) ∧
    (cap ∈ l → raise variants 0 0 0 tid cset cap k = (.ok (), k, [.capget])) ∧
    (cap ∉ l → ∃ d, Call.capset d ∈ (raise variants 0 0 0 tid cset cap k).2.2) := by
  have hbase := read_ok_isBase hread
  have hmemv := read_ok_mem_variants hread
  have hfull := read_ok_full hread
  have hidx : ∀ c ∈ l, c.index ≤ 63 := fun c hc => hvar c (hmemv c hc)
  refine ⟨fun habs => ?_, fun hmem => ?_, fun hmem => ?_, fun habs => ?_⟩
  · unfold drop
    rw [hfull]
    simp [habs]
  · unfold drop
    rw [hfull]
    have herase : ∀ c ∈ l.erase cap, c.index ≤ 63 :=
      fun c hc => hidx c (List.mem_of_mem_erase hc)
    obtain ⟨r1, r0, _, _, _, hset, _, _⟩ := set_ok tid hbase herase k
    refine ⟨writePair cset k r1 r0, ?_⟩
    simp [hmem, hset]
  · unfold raise
    rw [hfull]
    simp [hmem]
  · unfold raise
    rw [hfull]
    have happ : ∀ c ∈ l ++ [cap], c.index ≤ 63 := by
      intro c hc
      rcases List.mem_append.mp hc with hc | hc
      · exact hidx c hc
      · rw [List.mem_singleton.mp hc]
        exact hcap
    obtain ⟨r1, r0, _, _, _, hset, _, _⟩ := set_ok tid hbase happ k
    refine ⟨writePair cset k r1 r0, ?_⟩
    simp [habs, hset]

/-- C9 witness: over a kernel state whose effective class holds exactly
capability 0, dropping the present capability 0 issues a store, while
raising it is a no-op with a single get call. -/
theorem add_remove_noop_iff_witness :
    (∃ d, Call.capset d ∈
      (drop [⟨0⟩, ⟨1⟩] 0 0 0 0 .Effective ⟨0⟩ ⟨1, 0, 0, 0, 0, 0⟩).2.2) ∧
    raise [⟨0⟩, ⟨1⟩] 0 0 0 0 .Effective ⟨0⟩ ⟨1, 0, 0, 0, 0, 0⟩ =
      (.ok (), ⟨1, 0, 0, 0, 0, 0⟩, [.capget]) :=
  ⟨(add_remove_noop_iff [⟨0⟩, ⟨1⟩] 0 .Effective ⟨0⟩ ⟨1, 0, 0, 0, 0, 0⟩ [⟨0⟩]
      (by decide) (by decide) rfl).2.1 (by decide),
   (add_remove_noop_iff [⟨0⟩, ⟨1⟩] 0 .Effective ⟨0⟩ ⟨1, 0, 0, 0, 0, 0⟩ [⟨0⟩]
      (by decide) (by decide) rfl).2.2.1 (by decide)⟩

/-- C10: whenever `drop` or `raise` issues a store, every bit set in the
stored mask of the target class corresponds to an enumerated variant: a
kernel bit of that class that matches no variant is cleared by the store,
even though the operation nominally touched a single capability. -/
theorem store_rebuilds_from_variants (variants : List Capability) (tid : Int)
    (cset : CapSet) (cap : Capability) (k : CapUserData)
    (hvar : ∀ v ∈ variants, v.index ≤ 63) (hcap : cap ∈ variants) :
    ∀ d : CapUserData,
      (Call.capset d ∈ (drop variants 0 0 0 tid cset cap k).2.2 ∨
       Call.capset d ∈ (raise variants 0 0 0 tid cset cap k).2.2) →
      ∀ caps, csetCaps cset d = .ok caps →
        ∀ j, Nat.testBit caps j = true → ∃ v ∈ variants, v.index = j := by
  intro d hd caps hcaps j hj
  by_cases hbase : cset.isBase = true
  · obtain ⟨caps0, hcaps0⟩ := csetCaps_base hbase k
    have hrd := read_eq variants tid k hcaps0
    have hrd1 : (read variants 0 tid cset k).1 =
        .ok (variants.filter (fun c => decide ((caps0 &&& c.bitmask) ≠ 0))) := by
      rw [hrd]
    set l := variants.filter (fun c => decide ((caps0 &&& c.bitmask) ≠ 0)) with hl
    have hmemv : ∀ c ∈ l, c ∈ variants := fun c hc => (List.mem_filter.mp hc).1
    have hidx : ∀ c ∈ l, c.index ≤ 63 := fun c hc => hvar c (hmemv c hc)
    rcases hd with hd | hd
    · unfold drop at hd
      rw [hrd] at hd
      by_cases hmem : cap ∈ l
      · have herase : ∀ c ∈ l.erase cap, c.index ≤ 63 :=
          fun c hc => hidx c (List.mem_of_mem_erase hc)
        obtain ⟨r1, r0, _, _, _, hset, hwp, hbits⟩ := set_ok tid hbase herase k
        simp only [hmem, if_true, hset] at hd
        have hdw : d = writePair cset k r1 r0 := by simpa using hd
        rw [hdw, hwp] at hcaps
        have hce := Except.ok.inj hcaps
        rw [← hce] at hj
        obtain ⟨c, hcS, hcj⟩ := (hbits j).mp hj
        exact ⟨c, hmemv c (List.mem_of_mem_erase hcS), hcj⟩
      · simp [hmem] at hd
    · unfold raise at hd
      rw [hrd] at hd
      by_cases hmem : cap ∈ l
      · simp [hmem] at hd
      · have happ : ∀ c ∈ l ++ [cap], c.index ≤ 63 := by
          intro c hc
          rcases List.mem_append.mp hc with hc | hc
          · exact hidx c hc
          · rw [List.mem_singleton.mp hc]
            exact hvar cap hcap
        obtain ⟨r1, r0, _, _, _, hset, hwp, hbits⟩ := set_ok tid hbase happ k
        simp only [hmem, if_false, hset] at hd
        have hdw : d = writePair cset k r1 r0 := by simpa using hd
        rw [hdw, hwp] at hcaps
        have hce := Except.ok.inj hcaps
        rw [← hce] at hj
        obtain ⟨c, hcS, hcj⟩ := (hbits j).mp hj
        rcases List.mem_append.mp hcS with hcl | hcc
        · exact ⟨c, hmemv c hcl, hcj⟩
        · rw [List.mem_singleton.mp hcc] at hcj
          exact ⟨cap, hcap, hcj⟩
  · obtain ⟨e, hdrop, hraise⟩ :=
      drop_raise_nonbase (by simpa using hbase) variants 0 0 0 tid cap k
    rcases hd with hd | hd
    · rw [hdrop] at hd
      simp at hd
    · rw [hraise] at hd
      simp at hd

/-- C10 witness: with enumerated variants of indices 0 and 1 only, and a
kernel state whose effective mask holds bits 0, 1 and the unenumerated
bit 63, dropping the present capability 0 stores the structure
`⟨2, 0, 0, 0, 0, 0⟩` — bit 63 is cleared, and the surviving bit 1 of the
stored mask belongs to an enumerated variant. -/
theorem store_rebuilds_from_variants_witness :
    ∃ v ∈ [Capability.mk 0, Capability.mk 1], v.index = 1 :=
  store_rebuilds_from_variants [⟨0⟩, ⟨1⟩] 0 .Effective ⟨0⟩
    ⟨3, 0, 0, 2147483648, 0, 0⟩ (by decide) (by decide)
    ⟨2, 0, 0, 0, 0, 0⟩ (Or.inl (by decide)) 2 rfl 1 (by decide)

end Caps
